import Mathlib

/-
Verification development for the chord-calculator repository.

The definitions below are a shallow embedding of src/js/chord-analyzer.js
(the first, pattern-enhanced version in that file: unified scoring in
detectKey).  JavaScript strings are Lean Strings, JS arrays are Lean Lists,
JS null is Option.none, the -1 "not found" sentinel of indexOf/findIndex is
kept as the Int value -1.  JS objects used as insertion-ordered maps
(majorScales, candidateCounts) are association lists in insertion order.
String.prototype.split, trim and toLowerCase are re-implemented structurally
on character lists so that the kernel can evaluate them (trim is modelled for
the ASCII whitespace characters space, tab, CR, LF; the chord grammar never
produces other whitespace).
-/

/- Whitespace and trim, modelling String.prototype.trim on ASCII whitespace. -/

def isWS (c : Char) : Bool := c == ' ' || c == '\t' || c == '\n' || c == '\r'

def trimLeftWS (cs : List Char) : List Char := cs.dropWhile isWS

def trimRightWS (cs : List Char) : List Char := (cs.reverse.dropWhile isWS).reverse

def jsTrim (cs : List Char) : List Char := trimRightWS (trimLeftWS cs)

/- String.prototype.split(',') : structural recursion over the characters. -/

def splitComma : List Char → List (List Char)
  | [] => [[]]
  | c :: rest =>
    match splitComma rest with
    | [] => [[]]
    | s :: ss => if c == ',' then [] :: s :: ss else (c :: s) :: ss

/- toLowerCase for the ASCII letters appearing in roman numerals. -/

def charLower (c : Char) : Char :=
  if 'A' ≤ c && c ≤ 'Z' then Char.ofNat (c.toNat + 32) else c

def jsToLower (s : String) : String := String.mk (s.data.map charLower)

/- Reference notes (the NOTES constant): 12 slash-groups of spellings. -/

def NOTES : List (List String) :=
  [["C"], ["C#", "Db"], ["D"], ["D#", "Eb"], ["E"], ["F"], ["F#", "Gb"],
   ["G"], ["G#", "Ab"], ["A"], ["A#", "Bb"], ["B"]]

/- PREFERRED_KEY_SPELLING lookup (|| keyRoot fallback folded in). -/

def preferredSpelling (k : String) : String :=
  if k = "G#" then "Ab" else if k = "D#" then "Eb" else if k = "A#" then "Bb"
  else if k = "C#" then "Db" else if k = "F#" then "Gb" else k

def MAJOR_SCALE_PATTERN : List Nat := [0, 2, 4, 5, 7, 9, 11]

/- Array.prototype.findIndex / indexOf with the -1 sentinel. -/

def jsIndexOfAux (x : String) : List String → Int → Int
  | [], _ => -1
  | y :: ys, i => if y = x then i else jsIndexOfAux x ys (i + 1)

def jsIndexOf (l : List String) (x : String) : Int := jsIndexOfAux x l 0

/- NOTES.findIndex(n => n.split('/')[0] === primaryNote). -/

def findPrimIdx (p : String) : List (List String) → Int → Int
  | [], _ => -1
  | g :: gs, i => if g.headD "" = p then i else findPrimIdx p gs (i + 1)

/- Build all major scales keyed by primary and alias spelling, in the JS
   object insertion order (17 keys: C, C#, Db, D, D#, Eb, E, F, F#, Gb, G,
   G#, Ab, A, A#, Bb, B). -/

def buildScale (i : Nat) : List String :=
  MAJOR_SCALE_PATTERN.map (fun off => (NOTES.getD ((i + off) % 12) []).headD "")

def majorScales : List (String × List String) :=
  NOTES.flatMap (fun g =>
    let p := g.headD ""
    match findPrimIdx p NOTES 0 with
    | Int.ofNat i =>
      let scale := buildScale i
      (p, scale) ::
        (match g.drop 1 with
         | a :: _ => [(a, scale)]
         | [] => [])
    | Int.negSucc _ => [])

def candList : List String := majorScales.map Prod.fst

/- majorScales[key] own-property access.  JS property access additionally
   walks the prototype chain for non-table keys; that is modelled by
   msAccess below.  Engine-internal key arguments are always null or own
   keys of the table (candidate loops run over candList, detector proposals
   are primary or preferred spellings), so the inherited-property case is
   observable only through the exported getRomanNumeral; everywhere else
   own-property lookup is exact. -/

def lookupScale (k : String) : Option (List String) :=
  (majorScales.find? (fun kv => kv.1 = k)).map Prod.snd

def FUNCTION_NAMES : List String :=
  ["Tonic", "Supertonic", "Mediant", "Subdominant", "Dominant", "Submediant",
   "Leading Tone"]

def ROMAN_MAJOR : List String := ["I", "II", "III", "IV", "V", "VI", "VII"]
def ROMAN_MINOR : List String := ["i", "ii", "iii", "iv", "v", "vi", "vii"]

/- getNoteIndex: NOTES.findIndex(n => n.split('/').includes(note)). -/

def getNoteIndexAux (n : String) : List (List String) → Int → Int
  | [], _ => -1
  | g :: gs, i => if g.any (fun x => x = n) then i else getNoteIndexAux n gs (i + 1)

def getNoteIndex (n : String) : Int := getNoteIndexAux n NOTES 0

/- semitoneDiff: (i2 - i1 + 12) % 12, null if either note is unknown. -/

def semitoneDiff (note1 note2 : String) : Option Int :=
  let i1 := getNoteIndex note1
  let i2 := getNoteIndex note2
  if i1 = -1 || i2 = -1 then none
  else some ((i2 - i1 + 12) % 12)

/- The literal enharmonicEquivalents table (appears verbatim in
   getScaleDegree and getPositionInScale in the source). -/

def enharmonic (n : String) : Option String :=
  if n = "C#" then some "Db" else if n = "Db" then some "C#"
  else if n = "D#" then some "Eb" else if n = "Eb" then some "D#"
  else if n = "F#" then some "Gb" else if n = "Gb" then some "F#"
  else if n = "G#" then some "Ab" else if n = "Ab" then some "G#"
  else if n = "A#" then some "Bb" else if n = "Bb" then some "A#"
  else none

/- getScaleDegree(root, semitones, scale?): note `semitones` above root;
   the optional scale swaps in the enharmonic twin if present there.  In the
   engine every call site passes no scale (modelled as `none`). -/

def getScaleDegree (root : String) (semitones : Int) (scale : Option (List String)) :
    Option String :=
  let ni := getNoteIndex root
  if ni = -1 then none
  else
    let adjusted := (semitones + 12) % 12
    let resultNote := (NOTES.getD (((ni + adjusted) % 12).toNat) []).headD ""
    match scale with
    | some sc =>
      match enharmonic resultNote with
      | some e => if sc.any (fun x => x = e) then some e else some resultNote
      | none => some resultNote
    | none => some resultNote

/- getPositionInScale: indexOf with enharmonic fallback, -1 if absent. -/

def getPositionInScale (note : String) (scale : List String) : Int :=
  let direct := jsIndexOf scale note
  if direct != -1 then direct
  else
    match enharmonic note with
    | some e => jsIndexOf scale e
    | none => -1

/- Wrapping a possibly-null note into a one-element scale array, as the
   source does with `[bVI]` etc.; `[null]` and `[]` behave identically under
   getPositionInScale, so `none` becomes the empty list. -/

def optToList (o : Option String) : List String :=
  match o with
  | some n => [n]
  | none => []

/- Chord records as produced by parseChord. -/

structure Chord where
  root : String
  isMinor : Bool
  isDiminished : Bool
  isAugmented : Bool
  isSeventh : Bool
  isMajorSeventh : Bool
  quality : String
  chord : String
  deriving DecidableEq, Repr

/- Substring containment (String.prototype.includes). -/

def hasSub (pat : List Char) : List Char → Bool
  | [] => pat.isEmpty
  | c :: rest => pat.isPrefixOf (c :: rest) || hasSub pat rest

/- The root part of the regex ^([A-G][b#]?): greedy match never backtracks
   here because the tail pattern is closed under prepending characters. -/

def isRootLetter (c : Char) : Bool := 'A' ≤ c && c ≤ 'G'

def splitRoot : List Char → Option (List Char × List Char)
  | [] => none
  | c :: rest =>
    if isRootLetter c then
      match rest with
      | d :: rest2 =>
        if d == 'b' || d == '#' then some ([c, d], rest2) else some ([c], rest)
      | [] => some ([c], [])
    else none

/- Splitting the post-root text on '/'; quality is ([^\/]*) so the string
   matches iff there are at most two segments and the second (if present)
   is a valid bass note [A-G][b#]?. -/

def splitSlash : List Char → List (List Char)
  | [] => [[]]
  | c :: rest =>
    match splitSlash rest with
    | [] => [[]]
    | s :: ss => if c == '/' then [] :: s :: ss else (c :: s) :: ss

def isBass : List Char → Bool
  | [c] => isRootLetter c
  | [c, d] => isRootLetter c && (d == 'b' || d == '#')
  | _ => false

/- Quality-flag extraction and record construction from parseChord. -/

def mkChord (r q full : List Char) : Chord :=
  let m := hasSub ['m'] q && !(hasSub ['m', 'a', 'j'] q)
  let d := hasSub ['d', 'i', 'm'] q || hasSub ['°'] q
  let a := hasSub ['a', 'u', 'g'] q || hasSub ['+'] q
  let s7 := hasSub ['7'] q
  let m7 := hasSub ['m', 'a', 'j', '7'] q || hasSub ['M', '7'] q
  { root := String.mk r
    isMinor := m
    isDiminished := d
    isAugmented := a
    isSeventh := s7
    isMajorSeventh := m7
    quality := if m then "minor" else if d then "diminished"
               else if a then "augmented" else "major"
    chord := String.mk full }

def parseCore (cs : List Char) : Option Chord :=
  match splitRoot cs with
  | none => none
  | some (r, rest) =>
    match splitSlash rest with
    | [q] => some (mkChord r q cs)
    | [q, bs] => if isBass bs then some (mkChord r q cs) else none
    | _ => none

/- parseChord: null for the empty string, otherwise trim and match the
   grammar ROOT QUALITY? (/BASS)?. -/

def parseChord (s : String) : Option Chord :=
  if s.data = [] then none else parseCore (jsTrim s.data)

/- keyHasInvalidBorrowedChords (the refined rule set of the engine):
   bii* minor, bv* minor, VI* together with bVI*/bVII*, bVII* with v*. -/

def keyHasInvalidBorrowedChords (chords : List Chord) (key : String) : Bool :=
  match lookupScale key with
  | none => false
  | some scale =>
    let bii := getScaleDegree (scale.getD 1 "") (-1) none
    let _bIII := getScaleDegree (scale.getD 2 "") (-1) none
    let bv := getScaleDegree (scale.getD 4 "") (-1) none
    let bVI := getScaleDegree (scale.getD 0 "") 8 none
    let bVII := getScaleDegree (scale.getD 0 "") 10 none
    let hasbiimm := chords.any (fun c =>
      getPositionInScale c.root (optToList bii) == 0 &&
        c.isMinor && !c.isDiminished && !c.isAugmented)
    let hasbvmm := chords.any (fun c =>
      getPositionInScale c.root (optToList bv) == 0 &&
        c.isMinor && !c.isDiminished && !c.isAugmented)
    let hasvstar := chords.any (fun c =>
      getPositionInScale c.root scale == 4 &&
        c.isMinor && !c.isDiminished && !c.isAugmented)
    let hasVIstar := chords.any (fun c =>
      getPositionInScale c.root scale == 5 &&
        !c.isMinor && !c.isDiminished && !c.isAugmented)
    let hasbVIstar := chords.any (fun c =>
      getPositionInScale c.root (optToList bVI) == 0 &&
        !c.isMinor && !c.isDiminished && !c.isAugmented)
    let hasbVIIstar := chords.any (fun c =>
      getPositionInScale c.root (optToList bVII) == 0 &&
        !c.isMinor && !c.isDiminished && !c.isAugmented)
    hasbiimm || hasbvmm || (hasVIstar && (hasbVIstar || hasbVIIstar)) ||
      (hasbVIIstar && hasvstar)

/- Index-decorated list, for the i/j loops of getRotationCandidate. -/

def indexedFrom (n : Nat) : List α → List (Nat × α)
  | [] => []
  | a :: rest => (n, a) :: indexedFrom (n + 1) rest

def indexed (l : List α) : List (Nat × α) := indexedFrom 0 l

/- getRotationCandidate: every ordered pair (A not minor, B minor, i ≠ j)
   with semitoneDiff(A,B) = 4 proposes getScaleDegree(A.root, 7). -/

def rotationProposals (chords : List Chord) : List String :=
  (indexed chords).flatMap (fun p =>
    if p.2.isMinor then []
    else
      (indexed chords).filterMap (fun q =>
        if p.1 == q.1 then none
        else if !q.2.isMinor then none
        else if semitoneDiff p.2.root q.2.root == some 4 then
          getScaleDegree p.2.root 7 none
        else none))

/- The candidateCounts object: insertion-ordered tally of proposals. -/

def bumpCount (acc : List (String × Nat)) (k : String) : List (String × Nat) :=
  if acc.any (fun p => p.1 = k) then
    acc.map (fun p => if p.1 = k then (p.1, p.2 + 1) else p)
  else acc ++ [(k, 1)]

def rotationCounts (chords : List Chord) : List (String × Nat) :=
  (rotationProposals chords).foldl bumpCount []

/- Best candidate of the tally: first strict maximum in insertion order. -/

def rotationBest (counts : List (String × Nat)) : Option String × Nat :=
  counts.foldl (fun acc p => if p.2 > acc.2 then (some p.1, p.2) else acc)
    (none, 0)

/- All pairs (i, j) with i < j, in the double-loop order of the source. -/

def orderedPairs : List α → List (α × α)
  | [] => []
  | a :: rest => rest.map (fun b => (a, b)) ++ orderedPairs rest

/- detectIVVPattern: first pair of major chords a whole step apart whose
   implied key (a fourth below the lower chord) is not invalid. -/

def detectIVVPattern (chords : List Chord) : Option String :=
  let majorChords := chords.filter (fun c =>
    !c.isMinor && !c.isDiminished && !c.isAugmented)
  if majorChords.length < 2 then none
  else
    (orderedPairs majorChords).findSome? (fun pr =>
      let diff := semitoneDiff pr.1.root pr.2.root
      if diff == some 2 || diff == some 10 then
        let lower := if diff == some 2 then pr.1 else pr.2
        match getScaleDegree lower.root (-5) none with
        | some keyRoot =>
          if !keyHasInvalidBorrowedChords chords keyRoot then
            some (preferredSpelling keyRoot)
          else none
        | none => none
      else none)

/- detectVIPattern: hardcoded chord-set shortcuts first, then a scan of all
   candidate keys for a major chord on the sixth degree supported by I and
   IV/V, or by IV and V. -/

def detectVIPattern (chords : List Chord) : Option String :=
  let majorChords := chords.filter (fun c =>
    !c.isMinor && !c.isDiminished && !c.isAugmented)
  if majorChords.length < 2 then none
  else
    let hasF := majorChords.any (fun c => getPositionInScale c.root ["F"] == 0)
    let hasAb := majorChords.any (fun c => getPositionInScale c.root ["Ab"] == 0)
    let hasDb := majorChords.any (fun c => getPositionInScale c.root ["Db"] == 0)
    if hasF && hasAb && hasDb then some "Ab"
    else
      let hasD := majorChords.any (fun c => getPositionInScale c.root ["D"] == 0)
      let hasBb := majorChords.any (fun c => getPositionInScale c.root ["Bb"] == 0)
      if hasD && hasF && hasBb then some "F"
      else
        let hasA := majorChords.any (fun c => getPositionInScale c.root ["A"] == 0)
        let hasC := majorChords.any (fun c => getPositionInScale c.root ["C"] == 0)
        if hasA && hasC && hasF then some "C"
        else
          let hasEb := majorChords.any (fun c => getPositionInScale c.root ["Eb"] == 0)
          if hasC && hasEb && hasAb then some "Eb"
          else
            let hasG := majorChords.any (fun c => getPositionInScale c.root ["G"] == 0)
            if hasG && hasBb && hasEb then some "Bb"
            else
              let hasE := majorChords.any (fun c => getPositionInScale c.root ["E"] == 0)
              if hasE && hasG && hasC then some "G"
              else
                majorScales.findSome? (fun kv =>
                  if keyHasInvalidBorrowedChords chords kv.1 then none
                  else
                    let scale := kv.2
                    let hasMajorSixth := majorChords.any (fun c =>
                      getPositionInScale c.root scale == 5)
                    if hasMajorSixth then
                      let hasOne := majorChords.any (fun c =>
                        getPositionInScale c.root scale == 0)
                      let hasFour := majorChords.any (fun c =>
                        getPositionInScale c.root scale == 3)
                      let hasFive := majorChords.any (fun c =>
                        getPositionInScale c.root scale == 4)
                      if hasOne && (hasFour || hasFive) then
                        some (preferredSpelling kv.1)
                      else if hasFour && hasFive then
                        some (preferredSpelling kv.1)
                      else none
                    else none)

/- isDiatonicQuality against DIATONIC_QUALITIES (I, IV, V major; ii, iii,
   vi minor; vii diminished). -/

def isDiatonicQuality (c : Chord) (position : Int) : Bool :=
  if position < 0 || position > 6 then false
  else if c.isDiminished then position == 6
  else if c.isMinor then position == 1 || position == 2 || position == 5
  else if !c.isAugmented then position == 0 || position == 3 || position == 4
  else false

/- The base diatonic score of detectKey for one candidate scale. -/

def baseScore (chords : List Chord) (scale : List String) : Int :=
  let diatonicCount : Nat := chords.countP (fun c =>
    let pos := getPositionInScale c.root scale
    pos != -1 && isDiatonicQuality c pos)
  let tonicB : Int :=
    if chords.any (fun c => getPositionInScale c.root scale == 0 && !c.isMinor)
    then 1 else 0
  let subB : Int :=
    if chords.any (fun c => getPositionInScale c.root scale == 3 && !c.isMinor)
    then 1 else 0
  let domB : Int :=
    if chords.any (fun c => getPositionInScale c.root scale == 4 && !c.isMinor)
    then 1 else 0
  let medB : Int :=
    if scale.getD 2 "" ≠ "" &&
        (chords.find? (fun c =>
          getPositionInScale c.root scale == 2 && !c.isMinor)).isSome
    then 3 else 0
  let viStarB : Int :=
    if scale.getD 5 "" ≠ "" &&
        (chords.find? (fun c =>
          getPositionInScale c.root scale == 5 && !c.isMinor)).isSome
    then 2 else 0
  let flatSixth := getScaleDegree (scale.getD 0 "") 8 none
  let flatSeventh := getScaleDegree (scale.getD 0 "") 10 none
  let hasBorrowedVI := chords.any (fun c =>
    getPositionInScale c.root (optToList flatSixth) == 0 && !c.isMinor)
  let hasBorrowedVII := chords.any (fun c =>
    getPositionInScale c.root (optToList flatSeventh) == 0 && !c.isMinor)
  let hasI := chords.any (fun c =>
    getPositionInScale c.root scale == 0 && !c.isMinor)
  let hasvi := chords.any (fun c =>
    getPositionInScale c.root scale == 5 && c.isMinor)
  let borrowB : Int :=
    if hasI && hasvi && (hasBorrowedVI || hasBorrowedVII) then 4 else 0
  2 * (diatonicCount : Int) + tonicB + subB + domB + medB + viStarB + borrowB

/- The +10 bonus for the VI* detector's candidate. -/

def viBonus (chords : List Chord) (k : String) : Int :=
  match detectVIPattern chords with
  | some vp => if vp = k then 10 else 0
  | none => 0

/- The +8/+4 bonus for the IV-V detector's candidate. -/

def ivvBonus (chords : List Chord) (k : String) : Int :=
  match detectIVVPattern chords with
  | some cand =>
    if cand = k then
      let tonicPresent := chords.any (fun c =>
        getPositionInScale c.root ((lookupScale cand).getD []) == 0 && !c.isMinor)
      if tonicPresent then 8 else 4
    else 0
  | none => 0

/- Rotation bonuses: tally × 2 per candidate, plus a flat +2 for the single
   best proposal when its tally reaches the margin threshold 2. -/

def rotationBonus (chords : List Chord) (k : String) : Int :=
  let counts := rotationCounts chords
  let best := rotationBest counts
  match best.1 with
  | none => 0
  | some bc =>
    (match counts.find? (fun p => p.1 = k) with
     | some p => (p.2 : Int) * 2
     | none => 0) +
    (if bc = k && best.2 ≥ 2 then 2 else 0)

/- The +12 bonus of the generalized vi-I-IV loop. -/

def viIIVBonus (chords : List Chord) (k : String) : Int :=
  match lookupScale k with
  | none => 0
  | some scale =>
    let hasMinorvi := chords.any (fun c =>
      getPositionInScale c.root scale == 5 && c.isMinor)
    let hasMajorI := chords.any (fun c =>
      getPositionInScale c.root scale == 0 && !c.isMinor)
    let hasMajorIV := chords.any (fun c =>
      getPositionInScale c.root scale == 3 && !c.isMinor)
    if hasMinorvi && hasMajorI && hasMajorIV then 12 else 0

/- The +10 bonus of the VI*-IV loop for keys with no tonic chord.  The
   source also computes hasMajorII here but never uses it; the condition
   tested is exactly the three conjuncts below. -/

def noTonicBonus (chords : List Chord) (k : String) : Int :=
  match lookupScale k with
  | none => 0
  | some scale =>
    let hasMajorVI := chords.any (fun c =>
      getPositionInScale c.root scale == 5 && !c.isMinor)
    let hasMajorIV := chords.any (fun c =>
      getPositionInScale c.root scale == 3 && !c.isMinor)
    let _hasMajorII := chords.any (fun c =>
      getPositionInScale c.root scale == 1 && !c.isMinor)
    let hasMissingI := !(chords.any (fun c =>
      getPositionInScale c.root scale == 0 && !c.isMinor))
    if hasMajorVI && hasMajorIV && hasMissingI then 10 else 0

/- Total score of one candidate key: -1000 replaces the base score for
   invalid keys, and every later bonus loop still applies (as in the
   source, where the bonus loops do not re-check validity). -/

def totalScore (chords : List Chord) (k : String) : Int :=
  (if keyHasInvalidBorrowedChords chords k then -1000
   else baseScore chords ((lookupScale k).getD [])) +
    viBonus chords k + ivvBonus chords k + rotationBonus chords k +
    viIIVBonus chords k + noTonicBonus chords k

/- First strict maximum of the score table, in candidate order. -/

def pickBest (scores : List (String × Int)) : Option String :=
  (scores.foldl (fun acc p =>
    match acc with
    | none => some p
    | some q => if p.2 > q.2 then some p else some q) none).map Prod.fst

/- The safety-check rescan: best-scoring candidate other than bc that is
   not invalid (score > -Infinity is always true for the first hit). -/

def pickNext (scores : List (String × Int)) (bc : String) (chords : List Chord) :
    Option String :=
  (scores.foldl (fun acc p =>
    let ok := p.1 ≠ bc && !keyHasInvalidBorrowedChords chords p.1
    match acc with
    | none => if ok then some p else none
    | some q => if p.2 > q.2 && ok then some p else some q) none).map Prod.fst

/- detectKey (unified-scoring version). -/

def detectKey (chords : List Chord) : Option String :=
  if chords.isEmpty then none
  else
    let scores := candList.map (fun k => (k, totalScore chords k))
    match pickBest scores with
    | none => none
    | some bc =>
      if keyHasInvalidBorrowedChords chords bc then
        match pickNext scores bc chords with
        | some nb => some (preferredSpelling nb)
        | none => some (preferredSpelling bc)
      else some (preferredSpelling bc)

/- Numeral/function records. -/

structure RN where
  numeral : String
  function : String
  diatonic : Bool
  deriving DecidableEq, Repr

def CHROMATIC_INTERVALS : List String :=
  ["I", "bII", "II", "bIII", "III", "IV", "bV", "V", "bVI", "VI", "bVII", "VII"]

def getChromaticNumeral (c : Chord) (key : String) : String × String :=
  let tonicIndex := getNoteIndex key
  let chordIndex := getNoteIndex c.root
  if tonicIndex = -1 || chordIndex = -1 then ("?", "Unknown")
  else
    let semitones := ((chordIndex - tonicIndex + 12) % 12).toNat
    let base := CHROMATIC_INTERVALS.getD semitones ""
    let n1 :=
      if c.isMinor then jsToLower base
      else if c.isDiminished then jsToLower base ++ "°"
      else if c.isAugmented then base ++ "+"
      else base
    let n2 :=
      if c.isSeventh then n1 ++ (if c.isMajorSeventh then "maj7" else "7") else n1
    (n2 ++ "*", "Borrowed Chord")

def getRomanNumeral (c : Chord) (key : Option String) : RN :=
  match key with
  | none => ⟨"?", "Unknown", false⟩
  | some k =>
    match lookupScale k with
    | none => ⟨"?", "Unknown", false⟩
    | some scale =>
      let flatVI := getScaleDegree (scale.getD 0 "") 8 none
      if getPositionInScale c.root (optToList flatVI) == 0 && !c.isMinor then
        ⟨"bVI*", "Borrowed Chord", false⟩
      else
        let flatVII := getScaleDegree (scale.getD 0 "") 10 none
        if getPositionInScale c.root (optToList flatVII) == 0 && !c.isMinor then
          ⟨"bVII*", "Borrowed Chord", false⟩
        else
          let pos := getPositionInScale c.root scale
          if pos != -1 then
            let diatonic := isDiatonicQuality c pos
            let posN := pos.toNat
            let numeral0 :=
              if c.isMinor then ROMAN_MINOR.getD posN ""
              else if c.isDiminished then ROMAN_MINOR.getD posN "" ++ "°"
              else if c.isAugmented then ROMAN_MAJOR.getD posN "" ++ "+"
              else ROMAN_MAJOR.getD posN ""
            let numeral1 :=
              if c.isSeventh then numeral0 ++ (if c.isMajorSeventh then "maj7" else "7")
              else numeral0
            let numeral := if !diatonic then numeral1 ++ "*" else numeral1
            let funcName0 := FUNCTION_NAMES.getD posN ""
            let funcName :=
              if !diatonic then
                if pos == 1 && !c.isMinor then "V of V"
                else if pos == 2 && !c.isMinor then "Phrygian Dominant"
                else if pos == 3 && c.isMinor then "Minor Four"
                else if pos == 5 && !c.isMinor then "Tierce de Picardie"
                else funcName0
              else funcName0
            ⟨numeral, funcName, diatonic⟩
          else
            let ch := getChromaticNumeral c k
            ⟨ch.1, ch.2, false⟩

/- The output data model. -/

structure AnalysisEntry where
  chord : String
  numeral : String
  function : String
  diatonic : Bool
  deriving DecidableEq, Repr

structure AnalysisResult where
  key : Option String
  analysis : List AnalysisEntry
  deriving DecidableEq, Repr

def mkEntry (key : Option String) (c : Chord) : AnalysisEntry :=
  let roman := getRomanNumeral c key
  ⟨c.chord, roman.numeral, roman.function, roman.diatonic⟩

/- analyzeChords after tokenisation: parse each token (silently dropping
   failures), detect the key, and emit one entry per chord in order. -/

def analyzeTokens (tokens : List String) : AnalysisResult :=
  let chords := tokens.filterMap parseChord
  if chords.isEmpty then ⟨none, []⟩
  else
    let key := detectKey chords
    ⟨key, chords.map (mkEntry key)⟩

def trimS (s : String) : String := String.mk (jsTrim s.data)

def tokensOf (s : String) : List String :=
  (splitComma s.data).map (fun cs => trimS (String.mk cs))

def analyzeChords (s : String) : AnalysisResult := analyzeTokens (tokensOf s)

/- Property names inherited from Object.prototype: for these key strings
   the JS access majorScales[key] yields the inherited value (a function,
   or Object.prototype itself for __proto__) instead of undefined.  The
   inherited value is truthy, so the !scale guard of getRomanNumeral does
   not fire for them. -/

def VALID_BASS : List String :=
  ["A", "A#", "Ab", "B", "B#", "Bb", "C", "C#", "Cb", "D", "D#", "Db",
   "E", "E#", "Eb", "F", "F#", "Fb", "G", "G#", "Gb"]

/- Projection of a chord onto the fields the key/numeral engine reads
   (root and quality flags); the echoed symbol and quality text are blanked.
   Two chords with the same scrub image are interchangeable for the engine. -/

def scrub (c : Chord) : Chord :=
  ⟨c.root, c.isMinor, c.isDiminished, c.isAugmented, c.isSeventh,
    c.isMajorSeventh, "", ""⟩

/-- Written from the spec sentence behind claim C4, for comparison with the
code: the no-tonic bonus would require a missing major tonic together with a
major (non-diatonic) vi, a major IV, and a major (non-diatonic) ii. -/
def noTonicBonusSpecCond (chords : List Chord) (k : String) : Bool :=
  match lookupScale k with
  | none => false
  | some scale =>
    (!(chords.any (fun c =>
        getPositionInScale c.root scale == 0 && !c.isMinor))) &&
      chords.any (fun c => getPositionInScale c.root scale == 5 && !c.isMinor) &&
      chords.any (fun c => getPositionInScale c.root scale == 3 && !c.isMinor) &&
      chords.any (fun c => getPositionInScale c.root scale == 1 && !c.isMinor)

/- Generic counting lemma used by claim C1. -/

theorem length_filterMap_count (l : List α) (f : α → Option β) :
    (l.filterMap f).length = l.countP (fun a => (f a).isSome) := by
  induction l with
  | nil => rfl
  | cons a l ih =>
    cases h : f a <;> simp [List.filterMap_cons, h, List.countP_cons, ih]

/-- Claim C1: for every input progression string, the analysis list returned
by analyzeChords contains exactly one entry per syntactically valid chord
token (tokens rejected by the parser contribute no entry), in the same order
as the tokens appear in the input: the entries' echoed symbols are exactly
the parsed tokens' symbols, in order. -/
theorem c1_one_entry_per_valid_token (s : String) :
    (analyzeChords s).analysis.length =
        (tokensOf s).countP (fun t => (parseChord t).isSome) ∧
      (analyzeChords s).analysis.map (fun e => e.chord) =
        ((tokensOf s).filterMap parseChord).map (fun c => c.chord) := by
  rw [← length_filterMap_count]
  cases h : (tokensOf s).filterMap parseChord with
  | nil => simp [analyzeChords, analyzeTokens, h]
  | cons c cs => simp [analyzeChords, analyzeTokens, h, mkEntry]

/-- Claim C2: whenever no token of the input parses as a chord (the empty
string included), analyzeChords returns the null key and an empty analysis. -/
theorem c2_all_invalid_gives_null (s : String)
    (h : (tokensOf s).filterMap parseChord = []) :
    analyzeChords s = ⟨none, []⟩ := by
  simp [analyzeChords, analyzeTokens, h]

theorem c2_witness :
    ((tokensOf "").filterMap parseChord = []) ∧ analyzeChords "" = ⟨none, []⟩ :=
  ⟨rfl, c2_all_invalid_gives_null "" rfl⟩

/-- Claim C3: a candidate key (one whose scale exists in the table) is
flagged invalid exactly when the progression contains a minor chord on the
flat-second degree, a minor chord on the flat-fifth degree, a major chord on
the sixth degree together with a major chord on the borrowed flat-sixth or
flat-seventh degree, or a major chord on the borrowed flat-seventh together
with a non-diatonic minor chord on the dominant degree. -/
theorem c3_invalid_key_filter (chords : List Chord) (key : String)
    (scale : List String) (h : lookupScale key = some scale) :
    keyHasInvalidBorrowedChords chords key = true ↔
      ((∃ c ∈ chords,
          getPositionInScale c.root
              (optToList (getScaleDegree (scale.getD 1 "") (-1) none)) = 0 ∧
            c.isMinor = true ∧ c.isDiminished = false ∧ c.isAugmented = false) ∨
       (∃ c ∈ chords,
          getPositionInScale c.root
              (optToList (getScaleDegree (scale.getD 4 "") (-1) none)) = 0 ∧
            c.isMinor = true ∧ c.isDiminished = false ∧ c.isAugmented = false) ∨
       ((∃ c ∈ chords, getPositionInScale c.root scale = 5 ∧
            c.isMinor = false ∧ c.isDiminished = false ∧ c.isAugmented = false) ∧
        ((∃ c ∈ chords,
            getPositionInScale c.root
                (optToList (getScaleDegree (scale.getD 0 "") 8 none)) = 0 ∧
              c.isMinor = false ∧ c.isDiminished = false ∧ c.isAugmented = false) ∨
         (∃ c ∈ chords,
            getPositionInScale c.root
                (optToList (getScaleDegree (scale.getD 0 "") 10 none)) = 0 ∧
              c.isMinor = false ∧ c.isDiminished = false ∧ c.isAugmented = false))) ∨
       ((∃ c ∈ chords,
           getPositionInScale c.root
               (optToList (getScaleDegree (scale.getD 0 "") 10 none)) = 0 ∧
             c.isMinor = false ∧ c.isDiminished = false ∧ c.isAugmented = false) ∧
        (∃ c ∈ chords, getPositionInScale c.root scale = 4 ∧
            c.isMinor = true ∧ c.isDiminished = false ∧ c.isAugmented = false))) := by
  simp only [keyHasInvalidBorrowedChords, h]
  simp only [Bool.or_eq_true, Bool.and_eq_true, List.any_eq_true, beq_iff_eq,
    Bool.not_eq_true']
  simp only [and_assoc, or_assoc]

theorem c3_witness :
    (lookupScale "C" = some ["C", "D", "E", "F", "G", "A", "B"]) ∧
      (keyHasInvalidBorrowedChords (["Dbm"].filterMap parseChord) "C" = true ↔
        ((∃ c ∈ ["Dbm"].filterMap parseChord,
            getPositionInScale c.root
                (optToList (getScaleDegree
                  ((["C", "D", "E", "F", "G", "A", "B"] : List String).getD 1 "")
                  (-1) none)) = 0 ∧
              c.isMinor = true ∧ c.isDiminished = false ∧ c.isAugmented = false) ∨
         (∃ c ∈ ["Dbm"].filterMap parseChord,
            getPositionInScale c.root
                (optToList (getScaleDegree
                  ((["C", "D", "E", "F", "G", "A", "B"] : List String).getD 4 "")
                  (-1) none)) = 0 ∧
              c.isMinor = true ∧ c.isDiminished = false ∧ c.isAugmented = false) ∨
         ((∃ c ∈ ["Dbm"].filterMap parseChord,
             getPositionInScale c.root ["C", "D", "E", "F", "G", "A", "B"] = 5 ∧
               c.isMinor = false ∧ c.isDiminished = false ∧ c.isAugmented = false) ∧
          ((∃ c ∈ ["Dbm"].filterMap parseChord,
              getPositionInScale c.root
                  (optToList (getScaleDegree
                    ((["C", "D", "E", "F", "G", "A", "B"] : List String).getD 0 "")
                    8 none)) = 0 ∧
                c.isMinor = false ∧ c.isDiminished = false ∧ c.isAugmented = false) ∨
           (∃ c ∈ ["Dbm"].filterMap parseChord,
              getPositionInScale c.root
                  (optToList (getScaleDegree
                    ((["C", "D", "E", "F", "G", "A", "B"] : List String).getD 0 "")
                    10 none)) = 0 ∧
                c.isMinor = false ∧ c.isDiminished = false ∧ c.isAugmented = false))) ∨
         ((∃ c ∈ ["Dbm"].filterMap parseChord,
             getPositionInScale c.root
                 (optToList (getScaleDegree
                   ((["C", "D", "E", "F", "G", "A", "B"] : List String).getD 0 "")
                   10 none)) = 0 ∧
               c.isMinor = false ∧ c.isDiminished = false ∧ c.isAugmented = false) ∧
          (∃ c ∈ ["Dbm"].filterMap parseChord,
             getPositionInScale c.root ["C", "D", "E", "F", "G", "A", "B"] = 4 ∧
               c.isMinor = true ∧ c.isDiminished = false ∧ c.isAugmented = false)))) :=
  ⟨rfl, c3_invalid_key_filter _ "C" _ rfl⟩

/-- Claim C4 counterexample: for the progression A, F against candidate key
C the code applies the +10 no-tonic bonus although there is no major chord
on the second degree, so the bonus is not applied "exactly when" the
spec-stated four-part condition holds. -/
theorem c4_counterexample :
    noTonicBonus (["A", "F"].filterMap parseChord) "C" = 10 ∧
      noTonicBonusSpecCond (["A", "F"].filterMap parseChord) "C" = false := by
  decide

/-- Claim C4 amended: the +10 no-tonic bonus is applied exactly when the
progression has a non-minor chord on the sixth degree, a non-minor chord on
the fourth degree, and no non-minor chord on the tonic degree; the major-ii
requirement of the spec is computed by the code (hasMajorII) but never
tested. -/
theorem c4_amended (chords : List Chord) (k : String) (scale : List String)
    (h : lookupScale k = some scale) :
    noTonicBonus chords k = 10 ↔
      ((∃ c ∈ chords, getPositionInScale c.root scale = 5 ∧ c.isMinor = false) ∧
       (∃ c ∈ chords, getPositionInScale c.root scale = 3 ∧ c.isMinor = false) ∧
       ¬(∃ c ∈ chords, getPositionInScale c.root scale = 0 ∧ c.isMinor = false)) := by
  simp only [noTonicBonus, h]
  have hsplit : ∀ (b : Bool), ((if b = true then (10 : Int) else 0) = 10 ↔ b = true) := by
    intro b; cases b <;> simp
  rw [hsplit]
  simp only [Bool.and_eq_true, List.any_eq_true, beq_iff_eq, Bool.not_eq_true,
    Bool.not_eq_true', List.any_eq_false]
  simp only [and_assoc, not_exists, not_and]

theorem c4_witness :
    (lookupScale "C" = some ["C", "D", "E", "F", "G", "A", "B"]) ∧
      (noTonicBonus (["A", "F"].filterMap parseChord) "C" = 10 ↔
        ((∃ c ∈ ["A", "F"].filterMap parseChord,
            getPositionInScale c.root ["C", "D", "E", "F", "G", "A", "B"] = 5 ∧
              c.isMinor = false) ∧
         (∃ c ∈ ["A", "F"].filterMap parseChord,
            getPositionInScale c.root ["C", "D", "E", "F", "G", "A", "B"] = 3 ∧
              c.isMinor = false) ∧
         ¬(∃ c ∈ ["A", "F"].filterMap parseChord,
            getPositionInScale c.root ["C", "D", "E", "F", "G", "A", "B"] = 0 ∧
              c.isMinor = false))) :=
  ⟨rfl, c4_amended _ "C" _ rfl⟩

/- Shape of every chord the parser accepts, for claim C5. -/

theorem parseChord_shape {s : String} {c : Chord} (h : parseChord s = some c) :
    ∃ r q full, c = mkChord r q full := by
  unfold parseChord parseCore at h
  repeat' split at h
  all_goals simp only [Option.some.injEq, reduceCtorEq] at h
  all_goals first
    | exact absurd h (by simp)
    | exact ⟨_, _, _, h.symm⟩

/-- Claim C5 counterexample: the token "Cdim" is accepted by the parser and
produces a chord whose isMinor and isDiminished flags are both true (the
substring "dim" contains the letter m), so the three quality flags are not
mutually exclusive. -/
theorem c5_counterexample :
    (parseChord "Cdim").map (fun c => c.isMinor && c.isDiminished) = some true := by
  decide

/-- Claim C5 amended: the flags are not mutually exclusive (isMinor and
isDiminished are both set for "Cdim"), but the second half of the claim
holds: for every accepted token, when all three flags are false the derived
quality is major. -/
theorem c5_amended (s : String) (c : Chord) (h : parseChord s = some c)
    (hm : c.isMinor = false) (hd : c.isDiminished = false)
    (ha : c.isAugmented = false) : c.quality = "major" := by
  obtain ⟨r, q, full, rfl⟩ := parseChord_shape h
  simp only [mkChord] at hm hd ha ⊢
  rw [hm, hd, ha]
  simp

theorem c5_witness :
    (parseChord "C" = some (mkChord ['C'] [] ['C'])) ∧
      ((mkChord ['C'] [] ['C']).isMinor = false) ∧
      ((mkChord ['C'] [] ['C']).isDiminished = false) ∧
      ((mkChord ['C'] [] ['C']).isAugmented = false) ∧
      (mkChord ['C'] [] ['C']).quality = "major" :=
  ⟨rfl, rfl, rfl, rfl, c5_amended "C" _ rfl rfl rfl rfl⟩

/-- Claim C6: analyzing "A, C, F" yields key C, and the entry for the A
chord (the first entry) has numeral VI*, function Tierce de Picardie, and
diatonic false. -/
theorem c6_scenario_a_c_f :
    (analyzeChords "A, C, F").key = some "C" ∧
      (analyzeChords "A, C, F").analysis.head? =
        some ⟨"A", "VI*", "Tierce de Picardie", false⟩ := by
  decide

/-- Claim C7: the progressions "C, Db, Eb" and "C, C#, D#" are assigned the
same key, and in every candidate scale of the table the scale-position
lookup resolves Db and C# to the same position, and Eb and D# to the same
position. -/
theorem c7_enharmonic_equivalence :
    (analyzeChords "C, Db, Eb").key = (analyzeChords "C, C#, D#").key ∧
      majorScales.all (fun kv =>
        getPositionInScale "Db" kv.2 == getPositionInScale "C#" kv.2 &&
          getPositionInScale "Eb" kv.2 == getPositionInScale "D#" kv.2) = true := by
  decide

/-- Claim C8: analyzeChords is total by construction in this embedding;
lookup failures surface as sentinels (getNoteIndex failure forces the
semitoneDiff null sentinel for every second argument), a malformed root such
as "H" is dropped from the analysis while the remaining chords are still
analyzed, and a parseable chord with an unresolvable spelling ("Cb") yields
the "?"/Unknown record instead of a fault. -/
theorem c8_total_silent_skip :
    ((analyzeChords "C, H, G").analysis.map (fun e => e.chord) = ["C", "G"]) ∧
      (∀ a b : String, getNoteIndex a = -1 → semitoneDiff a b = none) ∧
      parseChord "H" = none ∧
      ((parseChord "Cb").map (fun c => getRomanNumeral c (some "C")) =
        some ⟨"?", "Unknown", false⟩) := by
  refine ⟨by decide, ?_, by decide, by decide⟩
  intro a b hA
  simp [semitoneDiff, hA]

theorem c8_witness : semitoneDiff "H" "C" = none :=
  c8_total_silent_skip.2.1 "H" "C" (by decide)

/-- Claim C9 counterexample: the token "C/E" already carries a bass note;
appending a slash and the valid bass note G turns it into "C/E/G", which no
longer parses, so the detected key changes from C to null and the entry
disappears: the claim fails for tokens that already contain a bass. -/
theorem c9_counterexample :
    (analyzeChords "C/E").key = some "C" ∧ (analyzeChords "C/E/G").key = none := by
  decide

theorem scrub_root (c : Chord) : (scrub c).root = c.root := rfl
theorem scrub_isMinor (c : Chord) : (scrub c).isMinor = c.isMinor := rfl
theorem scrub_isDim (c : Chord) : (scrub c).isDiminished = c.isDiminished := rfl
theorem scrub_isAug (c : Chord) : (scrub c).isAugmented = c.isAugmented := rfl
theorem scrub_isSeventh (c : Chord) : (scrub c).isSeventh = c.isSeventh := rfl
theorem scrub_isMajSeventh (c : Chord) : (scrub c).isMajorSeventh = c.isMajorSeventh := rfl

theorem isDiatonicQuality_scrub (c : Chord) (p : Int) :
    isDiatonicQuality (scrub c) p = isDiatonicQuality c p := rfl

theorem optIsSome_map (o : Option α) (f : α → β) : (o.map f).isSome = o.isSome := by
  cases o <;> rfl

theorem isEmptyMap (l : List α) (f : α → β) : (l.map f).isEmpty = l.isEmpty := by
  cases l <;> rfl

theorem indexedFrom_map (f : α → β) :
    ∀ (l : List α) (n : Nat),
      indexedFrom n (l.map f) = (indexedFrom n l).map (fun p => (p.1, f p.2)) := by
  intro l
  induction l with
  | nil => intro n; rfl
  | cons a l ih => intro n; simp [indexedFrom, ih]

theorem orderedPairs_map (f : α → β) :
    ∀ l : List α, orderedPairs (l.map f) = (orderedPairs l).map (fun p => (f p.1, f p.2)) := by
  intro l
  induction l with
  | nil => rfl
  | cons a l ih => simp [orderedPairs, ih, List.map_map, Function.comp]

/- Insensitivity of every engine function to the blanked fields. -/

theorem keyInv_scrub (cs : List Chord) (k : String) :
    keyHasInvalidBorrowedChords (cs.map scrub) k = keyHasInvalidBorrowedChords cs k := by
  simp only [keyHasInvalidBorrowedChords, List.any_map, Function.comp_def,
    scrub_root, scrub_isMinor, scrub_isDim, scrub_isAug]

theorem rotationProposals_scrub (cs : List Chord) :
    rotationProposals (cs.map scrub) = rotationProposals cs := by
  simp only [rotationProposals, indexed, indexedFrom_map, List.flatMap_map,
    List.filterMap_map, Function.comp_def, scrub_root, scrub_isMinor]

theorem detectIVV_scrub (cs : List Chord) :
    detectIVVPattern (cs.map scrub) = detectIVVPattern cs := by
  simp only [detectIVVPattern, List.filter_map, List.length_map, orderedPairs_map,
    List.findSome?_map, keyInv_scrub, Function.comp_def, apply_ite Chord.root,
    scrub_root, scrub_isMinor, scrub_isDim, scrub_isAug]

theorem detectVI_scrub (cs : List Chord) :
    detectVIPattern (cs.map scrub) = detectVIPattern cs := by
  simp only [detectVIPattern, List.filter_map, List.length_map, List.any_map,
    keyInv_scrub, Function.comp_def, scrub_root, scrub_isMinor, scrub_isDim,
    scrub_isAug]

theorem baseScore_scrub (cs : List Chord) (scale : List String) :
    baseScore (cs.map scrub) scale = baseScore cs scale := by
  simp only [baseScore, List.any_map, List.countP_map, List.find?_map, optIsSome_map,
    Function.comp_def, scrub_root, scrub_isMinor, scrub_isDim, scrub_isAug,
    isDiatonicQuality_scrub]

theorem viBonus_scrub (cs : List Chord) (k : String) :
    viBonus (cs.map scrub) k = viBonus cs k := by
  simp only [viBonus, detectVI_scrub]

theorem ivvBonus_scrub (cs : List Chord) (k : String) :
    ivvBonus (cs.map scrub) k = ivvBonus cs k := by
  simp only [ivvBonus, detectIVV_scrub, List.any_map, Function.comp_def,
    scrub_root, scrub_isMinor]

theorem rotationBonus_scrub (cs : List Chord) (k : String) :
    rotationBonus (cs.map scrub) k = rotationBonus cs k := by
  simp only [rotationBonus, rotationCounts, rotationProposals_scrub]

theorem viIIVBonus_scrub (cs : List Chord) (k : String) :
    viIIVBonus (cs.map scrub) k = viIIVBonus cs k := by
  simp only [viIIVBonus, List.any_map, Function.comp_def, scrub_root, scrub_isMinor]

theorem noTonicBonus_scrub (cs : List Chord) (k : String) :
    noTonicBonus (cs.map scrub) k = noTonicBonus cs k := by
  simp only [noTonicBonus, List.any_map, Function.comp_def, scrub_root, scrub_isMinor]

theorem totalScore_scrub (cs : List Chord) (k : String) :
    totalScore (cs.map scrub) k = totalScore cs k := by
  simp only [totalScore, keyInv_scrub, baseScore_scrub, viBonus_scrub, ivvBonus_scrub,
    rotationBonus_scrub, viIIVBonus_scrub, noTonicBonus_scrub]

theorem detectKey_scrub (cs : List Chord) :
    detectKey (cs.map scrub) = detectKey cs := by
  simp only [detectKey, pickNext, isEmptyMap, totalScore_scrub, keyInv_scrub]

theorem rn_scrub (c : Chord) (k : Option String) :
    getRomanNumeral (scrub c) k = getRomanNumeral c k := rfl

/- Trim fixed points and their preservation under appending a bass. -/

theorem dropWhile_id_of_head {p : α → Bool} {x : α} {l : List α} (hx : p x = false) :
    (x :: l).dropWhile p = x :: l := by
  simp [List.dropWhile_cons, hx]

theorem trimLeft_fix {cs : List Char} (h : jsTrim cs = cs) : trimLeftWS cs = cs := by
  have h1 : List.Sublist (trimLeftWS cs) cs := List.dropWhile_sublist _
  have h2 : List.Sublist (jsTrim cs) (trimLeftWS cs) := by
    have h3 : List.Sublist ((trimLeftWS cs).reverse.dropWhile isWS)
        (trimLeftWS cs).reverse := List.dropWhile_sublist _
    have h4 := h3.reverse
    rw [List.reverse_reverse] at h4
    exact h4
  have hlen : cs.length ≤ (trimLeftWS cs).length := by
    have h5 := h2.length_le
    rw [h] at h5
    exact h5
  exact h1.eq_of_length (le_antisymm h1.length_le hlen)

theorem trimRight_fix {cs : List Char} (h : jsTrim cs = cs) : trimRightWS cs = cs := by
  have hL := trimLeft_fix h
  have h2 : jsTrim cs = trimRightWS cs := by rw [jsTrim, hL]
  rw [← h2, h]

theorem head_not_ws {c : Char} {l : List Char} (h : trimLeftWS (c :: l) = c :: l) :
    isWS c = false := by
  by_contra hws
  rw [Bool.not_eq_false] at hws
  have h2 : trimLeftWS (c :: l) = l.dropWhile isWS := by
    simp [trimLeftWS, List.dropWhile_cons, hws]
  rw [h2] at h
  have h3 : (l.dropWhile isWS).length ≤ l.length := (List.dropWhile_sublist _).length_le
  rw [h] at h3
  simp at h3

theorem jsTrim_append_fix {cs ds : List Char} (h : jsTrim cs = cs) (hcs : cs ≠ [])
    (hds : ds ≠ []) (hall : ∀ d ∈ ds, isWS d = false) :
    jsTrim (cs ++ ds) = cs ++ ds := by
  obtain ⟨c, l, rfl⟩ : ∃ c l, cs = c :: l := by
    cases cs with
    | nil => exact absurd rfl hcs
    | cons c l => exact ⟨c, l, rfl⟩
  have hhead : isWS c = false := head_not_ws (trimLeft_fix h)
  have hleft : trimLeftWS ((c :: l) ++ ds) = (c :: l) ++ ds := by
    simp [trimLeftWS, List.dropWhile_cons, hhead]
  obtain ⟨d, r, hdr⟩ : ∃ d r, ds.reverse = d :: r := by
    cases hx : ds.reverse with
    | nil => exact absurd (by simpa using congrArg List.reverse hx) hds
    | cons d r => exact ⟨d, r, rfl⟩
  have hd : isWS d = false := by
    refine hall d ?_
    rw [← List.mem_reverse, hdr]
    exact List.mem_cons_self d r
  have key : (ds.reverse ++ (c :: l).reverse).dropWhile isWS =
      ds.reverse ++ (c :: l).reverse := by
    rw [hdr, List.cons_append, dropWhile_id_of_head hd]
  have hright : trimRightWS ((c :: l) ++ ds) = (c :: l) ++ ds := by
    rw [trimRightWS, List.reverse_append, key, List.reverse_append,
      List.reverse_reverse, List.reverse_reverse]
  rw [jsTrim, hleft, hright]

/- splitRoot, splitSlash and bass facts. -/

theorem splitRoot_decomp {cs r rest : List Char} (h : splitRoot cs = some (r, rest)) :
    cs = r ++ rest := by
  rcases cs with _ | ⟨c, _ | ⟨d, t2⟩⟩
  · simp [splitRoot] at h
  · simp only [splitRoot] at h
    split at h
    · simp only [Option.some.injEq, Prod.mk.injEq] at h
      rw [← h.1, ← h.2]
      rfl
    · simp at h
  · simp only [splitRoot] at h
    split at h
    · split at h <;>
        (simp only [Option.some.injEq, Prod.mk.injEq] at h; rw [← h.1, ← h.2]; rfl)
    · simp at h

theorem splitRoot_append {cs r rest es : List Char} (h : splitRoot cs = some (r, rest)) :
    splitRoot (cs ++ '/' :: es) = some (r, rest ++ '/' :: es) := by
  rcases cs with _ | ⟨c, _ | ⟨d, t2⟩⟩
  · simp [splitRoot] at h
  · simp only [splitRoot] at h
    split at h
    · rename_i hroot
      simp only [Option.some.injEq, Prod.mk.injEq] at h
      rw [← h.1, ← h.2]
      simp [splitRoot, hroot]
    · simp at h
  · simp only [splitRoot] at h
    split at h
    · rename_i hroot
      split at h <;> rename_i hacc <;>
        (simp only [Option.some.injEq, Prod.mk.injEq] at h; rw [← h.1, ← h.2];
         simp [splitRoot, hroot, hacc])
    · simp at h

theorem splitSlash_ne_nil : ∀ cs : List Char, splitSlash cs ≠ [] := by
  intro cs
  cases cs with
  | nil => simp [splitSlash]
  | cons c rest =>
    simp only [splitSlash]
    cases splitSlash rest with
    | nil => simp
    | cons s ss =>
      by_cases hc : (c == '/') = true <;> simp [hc]

theorem splitSlash_noSlash : ∀ {cs : List Char}, ('/' : Char) ∉ cs → splitSlash cs = [cs] := by
  intro cs
  induction cs with
  | nil => intro _; rfl
  | cons c rest ih =>
    intro h
    have hc : (c == '/') = false := by
      simp only [beq_eq_false_iff_ne, ne_eq]
      intro hh
      exact h (hh ▸ List.mem_cons_self c rest)
    simp only [splitSlash]
    rw [ih (fun hm => h (List.mem_cons_of_mem _ hm))]
    simp [hc]

theorem splitSlash_append {xs ys : List Char} (hx : ('/' : Char) ∉ xs) :
    splitSlash (xs ++ '/' :: ys) = xs :: splitSlash ys := by
  induction xs with
  | nil =>
    simp only [List.nil_append, splitSlash]
    cases hys : splitSlash ys with
    | nil => exact absurd hys (splitSlash_ne_nil ys)
    | cons s ss => simp
  | cons c rest ih =>
    have hc : (c == '/') = false := by
      simp only [beq_eq_false_iff_ne, ne_eq]
      intro hh
      exact hx (hh ▸ List.mem_cons_self c rest)
    rw [List.cons_append]
    simp only [splitSlash]
    rw [ih (fun hm => hx (List.mem_cons_of_mem _ hm))]
    simp [hc]

theorem bass_props {b : String} (hb : b ∈ VALID_BASS) :
    isBass b.data = true ∧ ('/' : Char) ∉ b.data ∧ b.data ≠ [] ∧
      ∀ d ∈ b.data, isWS d = false := by
  fin_cases hb <;> exact ⟨by decide, by decide, by decide, by decide⟩

/- Appending a slash and a valid bass to a trimmed slash-free token keeps
   the parse except for the echoed symbol. -/

theorem parse_append_bass {t b : String} {c : Chord}
    (hp : parseChord t = some c) (ht : jsTrim t.data = t.data)
    (hs : ('/' : Char) ∉ t.data) (hb : b ∈ VALID_BASS) :
    ∃ c2, parseChord (t ++ "/" ++ b) = some c2 ∧ scrub c2 = scrub c := by
  obtain ⟨hbass, hbs, hbne, hbws⟩ := bass_props hb
  have htne : t.data ≠ [] := by
    intro h0
    rw [parseChord, if_pos h0] at hp
    exact Option.noConfusion hp
  have hpc : parseCore t.data = some c := by
    rw [parseChord, if_neg htne, ht] at hp
    exact hp
  obtain ⟨r, rest, hsr⟩ : ∃ r rest, splitRoot t.data = some (r, rest) := by
    cases hx : splitRoot t.data with
    | none =>
      simp only [parseCore, hx] at hpc
      exact Option.noConfusion hpc
    | some p =>
      obtain ⟨r0, rest0⟩ := p
      exact ⟨r0, rest0, rfl⟩
  have hdec : t.data = r ++ rest := splitRoot_decomp hsr
  have hrest : ('/' : Char) ∉ rest := by
    intro hm
    exact hs (hdec ▸ List.mem_append_right _ hm)
  have hss : splitSlash rest = [rest] := splitSlash_noSlash hrest
  have hceq : c = mkChord r rest t.data := by
    simp only [parseCore, hsr, hss] at hpc
    exact (Option.some.inj hpc).symm
  have hdata : (t ++ "/" ++ b).data = t.data ++ '/' :: b.data := by
    simp [String.data_append]
  have hne2 : t.data ++ '/' :: b.data ≠ [] := by simp
  have htrim2 : jsTrim (t.data ++ '/' :: b.data) = t.data ++ '/' :: b.data := by
    refine jsTrim_append_fix ht htne (by simp) ?_
    intro d hd
    rcases List.mem_cons.mp hd with h1 | h2
    · rw [h1]; decide
    · exact hbws d h2
  refine ⟨mkChord r rest (t.data ++ '/' :: b.data), ?_, ?_⟩
  · rw [parseChord, hdata, if_neg hne2, htrim2]
    have hsr2 : splitRoot (t.data ++ '/' :: b.data) = some (r, rest ++ '/' :: b.data) :=
      splitRoot_append hsr
    have hss2 : splitSlash (rest ++ '/' :: b.data) = [rest, b.data] := by
      rw [splitSlash_append hrest, splitSlash_noSlash hbs]
    simp only [parseCore, hsr2, hss2, hbass, if_true]
  · rw [hceq]
    rfl

theorem isEmpty_append_cons (A : List α) (a : α) (B : List α) :
    (A ++ a :: B).isEmpty = false := by
  cases A <;> rfl

theorem filterMap_append_mid (pre post : List String) (t : String) (c : Chord)
    (hp : parseChord t = some c) :
    (pre ++ t :: post).filterMap parseChord =
      pre.filterMap parseChord ++ c :: post.filterMap parseChord := by
  simp [List.filterMap_append, List.filterMap_cons, hp]

/-- Claim C9 amended: appending a slash and a valid bass note (a letter A-G
with optional # or b) to any trimmed token that parses and does not already
contain a slash leaves the detected key and every entry's numeral, function,
and diatonic flag unchanged; only the echoed original-symbol field can
differ.  (Tokens that already carry a bass become unparseable instead, see
the counterexample.) -/
theorem c9_amended (pre post : List String) (t b : String) (c : Chord)
    (hp : parseChord t = some c) (ht : jsTrim t.data = t.data)
    (hs : ('/' : Char) ∉ t.data) (hb : b ∈ VALID_BASS) :
    (analyzeTokens (pre ++ t :: post)).key =
        (analyzeTokens (pre ++ (t ++ "/" ++ b) :: post)).key ∧
      (analyzeTokens (pre ++ t :: post)).analysis.map
          (fun e => (e.numeral, e.function, e.diatonic)) =
        (analyzeTokens (pre ++ (t ++ "/" ++ b) :: post)).analysis.map
          (fun e => (e.numeral, e.function, e.diatonic)) := by
  obtain ⟨c2, hp2, hsc⟩ := parse_append_bass hp ht hs hb
  have hA := filterMap_append_mid pre post t c hp
  have hB := filterMap_append_mid pre post (t ++ "/" ++ b) c2 hp2
  have hmap : (pre.filterMap parseChord ++ c :: post.filterMap parseChord).map scrub =
      (pre.filterMap parseChord ++ c2 :: post.filterMap parseChord).map scrub := by
    simp [List.map_append, hsc]
  have hkey : detectKey (pre.filterMap parseChord ++ c :: post.filterMap parseChord) =
      detectKey (pre.filterMap parseChord ++ c2 :: post.filterMap parseChord) := by
    rw [← detectKey_scrub (pre.filterMap parseChord ++ c :: post.filterMap parseChord),
      hmap, detectKey_scrub]
  have hrn : ∀ k, getRomanNumeral c k = getRomanNumeral c2 k := by
    intro k
    rw [← rn_scrub c k, ← rn_scrub c2 k, hsc]
  constructor
  · simp only [analyzeTokens, hA, hB, isEmpty_append_cons, Bool.false_eq_true,
      if_false, hkey]
  · simp only [analyzeTokens, hA, hB, isEmpty_append_cons, Bool.false_eq_true,
      if_false, hkey, List.map_append, List.map_cons, List.map_map]
    simp [mkEntry, Function.comp_def, hrn]

theorem c9_witness :
    (parseChord "C" = some (mkChord ['C'] [] ['C'])) ∧
      (jsTrim ("C" : String).data = ("C" : String).data) ∧
      (('/' : Char) ∉ ("C" : String).data) ∧
      ("E" ∈ VALID_BASS) ∧
      ((analyzeTokens ["C", "G"]).key = (analyzeTokens ["C" ++ "/" ++ "E", "G"]).key ∧
        (analyzeTokens ["C", "G"]).analysis.map
            (fun e => (e.numeral, e.function, e.diatonic)) =
          (analyzeTokens ["C" ++ "/" ++ "E", "G"]).analysis.map
            (fun e => (e.numeral, e.function, e.diatonic))) :=
  ⟨rfl, rfl, by decide, by decide,
    c9_amended [] ["G"] "C" "E" (mkChord ['C'] [] ['C']) rfl rfl (by decide) (by decide)⟩
